import Mathlib

/-!
Shallow embedding of the block-editor document store
(src/src/components/BlockEditor.tsx, src/src/types.ts) and proofs of the
specified properties of its operations.

A `Block` carries an opaque id, a type tag (text / image / heading), a
content string and an editing flag.  The TypeScript `isEditing?: boolean`
field is modelled as a `Bool`: an absent field and `false` behave
identically everywhere in the code (the flag is only read for truthiness).
A `Document` is a `List Block`.
-/

inductive BlockType where
  | text
  | image
  | heading
deriving DecidableEq, Repr

/-- Lowercase name of a block type, as the TypeScript string literal. -/
def BlockType.name : BlockType → String
  | .text => "text"
  | .image => "image"
  | .heading => "heading"

structure Block where
  id : String
  type : BlockType
  content : String
  isEditing : Bool
deriving DecidableEq, Repr

/-- Embedding of `reorder` in BlockEditor.tsx:
`result.splice(startIndex, 1)` removes the element at `startIndex`, then
`result.splice(endIndex, 0, removed)` reinserts it at `endIndex` (JS
`splice` clamps an insertion index to the array length, hence the `min`).
When `startIndex` is out of range the JS code would splice in `undefined`;
that branch is unreachable for the valid indices the callers pass and is
modelled as the identity. -/
def reorder (list : List Block) (startIndex endIndex : Nat) : List Block :=
  match list[startIndex]? with
  | none => list
  | some removed =>
      (list.eraseIdx startIndex).insertIdx
        (min endIndex (list.eraseIdx startIndex).length) removed

/-- Embedding of `handleDrop` in BlockEditor.tsx, restricted to its effect
on the block list: a no-op when no drag is active or when the drop lands on
the source index, otherwise `reorder`. -/
def handleDrop (blocks : List Block) (draggedIndex : Option Nat)
    (dropIndex : Nat) : List Block :=
  match draggedIndex with
  | none => blocks
  | some startIndex =>
      if startIndex = dropIndex then blocks
      else reorder blocks startIndex dropIndex

/-- Placeholder content a fresh block receives in `addBlock`:
the image URL with the uppercased type name, or `New <type> block`. -/
def placeholderContent (t : BlockType) : String :=
  if t = BlockType.image then
    "https://placehold.co/200x150/d3d3d3/555555?text=" ++ t.name.toUpper
  else
    "New " ++ t.name ++ " block"

/-- Embedding of `addBlock` in BlockEditor.tsx.  The fresh uuid is passed
in as `freshId`; the new block is appended with `isEditing` true exactly
for non-image types. -/
def addBlock (t : BlockType) (freshId : String) (blocks : List Block) :
    List Block :=
  blocks ++ [{ id := freshId, type := t, content := placeholderContent t,
               isEditing := t ≠ BlockType.image }]

/-- Embedding of `toggleEditMode` in BlockEditor.tsx: the block matching
`id` has its editing flag negated, every other block has it set to
`false`. -/
def toggleEditMode (id : String) (blocks : List Block) : List Block :=
  blocks.map fun block =>
    if block.id = id then { block with isEditing := !block.isEditing }
    else { block with isEditing := false }

/-- Embedding of `updateBlockContent` in BlockEditor.tsx: the block
matching `id` has its content replaced, every other block is untouched. -/
def updateBlockContent (id : String) (content : String)
    (blocks : List Block) : List Block :=
  blocks.map fun block =>
    if block.id = id then { block with content := content } else block

/-- Embedding of the empty-document container `onDrop` handler in
BlockEditor.tsx: when the block list is empty and a drag is active it
replaces the list by the one-element array `[blocks[draggedItemIndex]]`.
Indexing is JS indexing, so the element may be `undefined`; the result
list therefore holds `Option Block`, with present blocks wrapped in
`some`.  In every other case the handler leaves the list alone. -/
def containerDrop (blocks : List Block) (draggedIndex : Option Nat) :
    List (Option Block) :=
  match draggedIndex with
  | none => blocks.map some
  | some i =>
      if blocks.length = 0 then [blocks[i]?]
      else blocks.map some

/-- Number of blocks currently in edit mode. -/
def editingCount (blocks : List Block) : Nat :=
  (blocks.filter fun b => b.isEditing).length

/-- Invariant: at most one block is in edit mode. -/
def atMostOneEditing (blocks : List Block) : Prop :=
  editingCount blocks ≤ 1

instance (blocks : List Block) : Decidable (atMostOneEditing blocks) :=
  inferInstanceAs (Decidable (editingCount blocks ≤ 1))

/-- Invariant: no image block is in edit mode. -/
def noImageEditing (blocks : List Block) : Prop :=
  ∀ b ∈ blocks, b.type = BlockType.image → b.isEditing = false

instance (blocks : List Block) : Decidable (noImageEditing blocks) :=
  List.decidableBAll _ blocks

/-- Sample blocks for the concrete spec scenarios. -/
def blockA : Block :=
  { id := "A", type := BlockType.heading, content := "A", isEditing := false }

def blockB : Block :=
  { id := "B", type := BlockType.text, content := "B", isEditing := false }

def blockC : Block :=
  { id := "C", type := BlockType.image, content := "C", isEditing := false }

/-! Helper lemmas about the operations. -/

theorem editingCount_cons (b : Block) (l : List Block) :
    editingCount (b :: l) = (if b.isEditing then 1 else 0) + editingCount l := by
  cases h : b.isEditing <;>
    simp [editingCount, List.filter_cons, h, Nat.add_comm]

theorem editingCount_append (l₁ l₂ : List Block) :
    editingCount (l₁ ++ l₂) = editingCount l₁ + editingCount l₂ := by
  simp [editingCount, List.filter_append]

theorem editingCount_perm {l l' : List Block} (h : l.Perm l') :
    editingCount l = editingCount l' :=
  (h.filter _).length_eq

theorem toggleEditMode_absent {id : String} {l : List Block}
    (h : id ∉ l.map Block.id) :
    toggleEditMode id l = l.map fun b => { b with isEditing := false } := by
  unfold toggleEditMode
  refine List.map_congr_left fun b hb => ?_
  have hne : b.id ≠ id := fun he => h (he ▸ List.mem_map_of_mem Block.id hb)
  simp [hne]

theorem editingCount_map_clear (l : List Block) :
    editingCount (l.map fun b => { b with isEditing := false }) = 0 := by
  induction l with
  | nil => rfl
  | cons b l ih => simpa [editingCount_cons] using ih

theorem editingCount_toggle_le_one {l : List Block} (id : String)
    (hnd : (l.map Block.id).Nodup) :
    editingCount (toggleEditMode id l) ≤ 1 := by
  induction l with
  | nil => simp [toggleEditMode, editingCount]
  | cons b l ih =>
    rw [List.map_cons, List.nodup_cons] at hnd
    obtain ⟨hb, hl⟩ := hnd
    show editingCount
        ((if b.id = id then { b with isEditing := !b.isEditing }
          else { b with isEditing := false }) :: toggleEditMode id l) ≤ 1
    rw [editingCount_cons]
    by_cases hid : b.id = id
    · have habs : id ∉ l.map Block.id := hid ▸ hb
      rw [toggleEditMode_absent habs, editingCount_map_clear]
      split <;> cases b.isEditing <;> simp
    · simp only [hid, if_false]
      simpa using ih hl

theorem editingCount_update (id c : String) (l : List Block) :
    editingCount (updateBlockContent id c l) = editingCount l := by
  induction l with
  | nil => rfl
  | cons b l ih =>
    show editingCount
        ((if b.id = id then { b with content := c } else b) ::
          updateBlockContent id c l) = _
    rw [editingCount_cons, editingCount_cons, ih]
    by_cases hid : b.id = id <;> simp [hid]

theorem reorder_eq {l : List Block} {i j : Nat} (hi : i < l.length)
    (hj : j < l.length) :
    reorder l i j = (l.eraseIdx i).insertIdx j l[i] := by
  have hmin : min j (l.eraseIdx i).length = j := by
    rw [List.length_eraseIdx_of_lt hi]
    exact Nat.min_eq_left (Nat.le_pred_of_lt hj)
  simp [reorder, List.getElem?_eq_getElem hi, hmin]

theorem reorder_perm {l : List Block} {i : Nat} (j : Nat)
    (hi : i < l.length) : (reorder l i j).Perm l := by
  have h1 : l.Perm (l[i] :: l.eraseIdx i) :=
    (List.perm_cons_erase (l.getElem_mem hi)).trans
      ((List.erase_getElem hi).cons l[i])
  have h2 : ((l.eraseIdx i).insertIdx
        (min j (l.eraseIdx i).length) l[i]).Perm (l[i] :: l.eraseIdx i) :=
    List.perm_insertIdx _ _ (Nat.min_le_right _ _)
  have : reorder l i j =
      (l.eraseIdx i).insertIdx (min j (l.eraseIdx i).length) l[i] := by
    simp [reorder, List.getElem?_eq_getElem hi]
  rw [this]
  exact h2.trans h1.symm

theorem handleDrop_perm {l : List Block} {i : Nat} (j : Nat)
    (hi : i < l.length) : (handleDrop l (some i) j).Perm l := by
  by_cases h : i = j
  · simp [handleDrop, h]
  · simpa [handleDrop, h] using reorder_perm j hi

theorem insertIdx_getElem_eraseIdx {α : Type _} :
    ∀ (l : List α) (i : Nat) (hi : i < l.length),
      (l.eraseIdx i).insertIdx i l[i] = l
  | _ :: _, 0, _ => rfl
  | a :: l, i + 1, hi => by
    simp only [List.eraseIdx_cons_succ, List.getElem_cons_succ,
      List.insertIdx_succ_cons]
    exact congrArg (a :: ·)
      (insertIdx_getElem_eraseIdx l i (by simpa using hi))

example : reorder [blockA, blockB, blockC] 0 2 = [blockB, blockC, blockA] := by
  decide

example : handleDrop [blockA, blockB, blockC] (some 0) 2 =
    [blockB, blockC, blockA] := by decide

example : containerDrop [] (some 0) = [none] := by decide

example : addBlock BlockType.text "N" [blockA, blockB] =
    [blockA, blockB,
     { id := "N", type := BlockType.text, content := "New text block",
       isEditing := true }] := by decide

/-- C1: for every Document and every pair of valid indices `(i, j)`, the
drop reorder yields a Document of the same length with the same multiset
of block ids; only the order of blocks changes. -/
theorem spec_c1_reorder_preserves_ids (l : List Block) (i j : Nat)
    (hi : i < l.length) (_hj : j < l.length) :
    (reorder l i j).length = l.length ∧
    Multiset.ofList ((reorder l i j).map Block.id) =
      Multiset.ofList (l.map Block.id) :=
  ⟨(reorder_perm j hi).length_eq,
   Quotient.sound ((reorder_perm j hi).map Block.id)⟩

/-- Witness for C1 at the concrete Document `[A, B, C]` with `i = 0`,
`j = 2`. -/
theorem spec_c1_reorder_preserves_ids_witness :
    (reorder [blockA, blockB, blockC] 0 2).length = 3 ∧
    Multiset.ofList ((reorder [blockA, blockB, blockC] 0 2).map Block.id) =
      Multiset.ofList ([blockA, blockB, blockC].map Block.id) :=
  spec_c1_reorder_preserves_ids [blockA, blockB, blockC] 0 2
    (by decide) (by decide)

/-- C7: the drop move from `i` to `j` followed by the inverse move from
`j` back to `i` restores the original Document. -/
theorem spec_c7_reorder_inverse (l : List Block) (i j : Nat)
    (hi : i < l.length) (hj : j < l.length) (_hij : i ≠ j) :
    reorder (reorder l i j) j i = l := by
  have he : (l.eraseIdx i).length = l.length - 1 :=
    List.length_eraseIdx_of_lt hi
  have hjle : j ≤ (l.eraseIdx i).length := by omega
  have e1 : reorder l i j = (l.eraseIdx i).insertIdx j l[i] :=
    reorder_eq hi hj
  have hlen : (reorder l i j).length = l.length := (reorder_perm j hi).length_eq
  have hj' : j < (reorder l i j).length := by omega
  have hi' : i < (reorder l i j).length := by omega
  have e2 : reorder (reorder l i j) j i =
      ((reorder l i j).eraseIdx j).insertIdx i ((reorder l i j).get ⟨j, hj'⟩) :=
    reorder_eq hj' hi'
  have e3 : (reorder l i j).eraseIdx j = l.eraseIdx i := by
    rw [e1, List.eraseIdx_insertIdx]
  have e4 : (reorder l i j).get ⟨j, hj'⟩ = l[i] := by
    rw [List.get_of_eq e1]
    exact List.get_insertIdx_self _ _ _ hjle
  rw [e2, e3, e4, insertIdx_getElem_eraseIdx l i hi]

/-- Witness for C7 at the concrete Document `[A, B, C]` with `i = 0`,
`j = 2`. -/
theorem spec_c7_reorder_inverse_witness :
    reorder (reorder [blockA, blockB, blockC] 0 2) 2 0 =
      [blockA, blockB, blockC] :=
  spec_c7_reorder_inverse [blockA, blockB, blockC] 0 2
    (by decide) (by decide) (by decide)

/-- C10: a single `toggleEditMode` call on a Document with unique block
ids and the target id present yields a Document with at most one editing
block, from any starting state (even one with several editing blocks),
because every non-matching block is forced to `editing = false`. -/
theorem spec_c10_toggle_restores_invariant (l : List Block) (id : String)
    (hnd : (l.map Block.id).Nodup) (_hmem : id ∈ l.map Block.id) :
    atMostOneEditing (toggleEditMode id l) :=
  editingCount_toggle_le_one id hnd

/-- Witness for C10 on a Document in which two blocks are editing at
once. -/
theorem spec_c10_toggle_restores_invariant_witness :
    atMostOneEditing (toggleEditMode "a"
      [{ id := "a", type := BlockType.text, content := "x", isEditing := true },
       { id := "b", type := BlockType.text, content := "y", isEditing := true }]) :=
  spec_c10_toggle_restores_invariant
    [{ id := "a", type := BlockType.text, content := "x", isEditing := true },
     { id := "b", type := BlockType.text, content := "y", isEditing := true }]
    "a" (by decide) (by decide)

/-- C4 fails on the code: `toggleEditMode` with an id absent from the
Document is not a no-op — here it clears the editing flag of block
`"a"`. -/
theorem spec_c4_counterexample :
    "b" ∉ ([{ id := "a", type := BlockType.text, content := "x",
              isEditing := true }].map Block.id) ∧
    toggleEditMode "b"
        [{ id := "a", type := BlockType.text, content := "x",
           isEditing := true }] ≠
      [{ id := "a", type := BlockType.text, content := "x",
         isEditing := true }] := by
  constructor
  · decide
  · decide

/-- C4 amended: `toggleEditMode` with an id absent from the Document
leaves ids, types, contents and order unchanged but forces every block's
editing flag to `false` (so it is a true no-op only when no block was
editing). -/
theorem spec_c4_amended_toggle_absent_clears (id : String) (l : List Block)
    (h : id ∉ l.map Block.id) :
    toggleEditMode id l = l.map fun b => { b with isEditing := false } :=
  toggleEditMode_absent h

/-- Witness for the amended C4 on a one-block Document and an absent
id. -/
theorem spec_c4_amended_toggle_absent_clears_witness :
    toggleEditMode "b"
        [{ id := "a", type := BlockType.text, content := "x",
           isEditing := true }] =
      ([{ id := "a", type := BlockType.text, content := "x",
          isEditing := true }] : List Block).map
        fun b => { b with isEditing := false } :=
  spec_c4_amended_toggle_absent_clears "b"
    [{ id := "a", type := BlockType.text, content := "x", isEditing := true }]
    (by decide)

/-- C5: dropping while the Document is empty replaces the Document by a
one-element array whose sole entry is `blocks[draggedItemIndex]`, which on
an empty Document is `undefined` (`none`) — not the dragged Block the
spec promises. -/
theorem spec_c5_empty_drop_places_undefined :
    containerDrop [] (some 0) = [none] := by decide

/-- C3 fails on the code: `addBlock` of a text block appends a block that
starts in edit mode without clearing the existing editing block, so a
Document with one editing block gains a second one. -/
theorem spec_c3_counterexample :
    atMostOneEditing
      [{ id := "a", type := BlockType.text, content := "x",
         isEditing := true }] ∧
    ¬ atMostOneEditing (addBlock BlockType.text "b"
      [{ id := "a", type := BlockType.text, content := "x",
         isEditing := true }]) :=
  ⟨by decide, by decide⟩

/-- C3 amended: on Documents with unique block ids, `toggleEditMode`,
`updateBlockContent` and `drop` preserve the at-most-one-editing
invariant, and so does `addBlock` of an image block; `addBlock` of a
text or heading block starts the new block in edit mode and can break the
invariant. -/
theorem spec_c3_amended_preservation :
    (∀ (l : List Block) (id : String), (l.map Block.id).Nodup →
      atMostOneEditing l → atMostOneEditing (toggleEditMode id l)) ∧
    (∀ (l : List Block) (id c : String),
      atMostOneEditing l → atMostOneEditing (updateBlockContent id c l)) ∧
    (∀ (l : List Block) (i j : Nat), i < l.length →
      atMostOneEditing l → atMostOneEditing (handleDrop l (some i) j)) ∧
    (∀ (l : List Block) (fid : String),
      atMostOneEditing l → atMostOneEditing (addBlock BlockType.image fid l)) := by
  refine ⟨fun l id hnd _ => editingCount_toggle_le_one id hnd, ?_, ?_, ?_⟩
  · intro l id c h
    unfold atMostOneEditing at *
    rwa [editingCount_update]
  · intro l i j hi h
    unfold atMostOneEditing at *
    rwa [editingCount_perm (handleDrop_perm j hi)]
  · intro l fid h
    unfold atMostOneEditing addBlock at *
    rw [editingCount_append]
    simpa [editingCount_cons] using h

/-- Witness for the amended C3 at concrete Documents. -/
theorem spec_c3_amended_preservation_witness :
    atMostOneEditing (toggleEditMode "A" [blockA, blockB]) ∧
    atMostOneEditing (updateBlockContent "A" "z" [blockA, blockB]) ∧
    atMostOneEditing (handleDrop [blockA, blockB] (some 0) 1) ∧
    atMostOneEditing (addBlock BlockType.image "N" [blockA, blockB]) :=
  ⟨spec_c3_amended_preservation.1 [blockA, blockB] "A" (by decide) (by decide),
   spec_c3_amended_preservation.2.1 [blockA, blockB] "A" "z" (by decide),
   spec_c3_amended_preservation.2.2.1 [blockA, blockB] 0 1 (by decide)
     (by decide),
   spec_c3_amended_preservation.2.2.2 [blockA, blockB] "N" (by decide)⟩

/-- C6 fails on the code: the store operation `toggleEditMode` applied to
an image block's id puts that image block into edit mode. -/
theorem spec_c6_counterexample :
    noImageEditing [blockC] ∧
    ¬ noImageEditing (toggleEditMode "C" [blockC]) :=
  ⟨by decide, by decide⟩

/-- C6 amended: no image block is ever editing under `addBlock`,
`updateBlockContent` and `drop`, and under `toggleEditMode` whenever the
target id does not belong to an image block (which the presenter's
double-click guard enforces); `toggleEditMode` on an image block's id
violates the invariant. -/
theorem spec_c6_amended_preservation :
    (∀ (l : List Block) (t : BlockType) (fid : String),
      noImageEditing l → noImageEditing (addBlock t fid l)) ∧
    (∀ (l : List Block) (id c : String),
      noImageEditing l → noImageEditing (updateBlockContent id c l)) ∧
    (∀ (l : List Block) (i j : Nat), i < l.length →
      noImageEditing l → noImageEditing (handleDrop l (some i) j)) ∧
    (∀ (l : List Block) (id : String),
      (∀ b ∈ l, b.id = id → b.type ≠ BlockType.image) →
      noImageEditing l → noImageEditing (toggleEditMode id l)) := by
  refine ⟨?_, ?_, ?_, ?_⟩
  · intro l t fid h b hb himg
    rcases List.mem_append.mp hb with h1 | h1
    · exact h b h1 himg
    · have hb' : b = { id := fid, type := t, content := placeholderContent t,
                       isEditing := t ≠ BlockType.image } := by simpa using h1
      subst hb'
      simp only at himg
      simp [himg]
  · intro l id c h b hb himg
    unfold updateBlockContent at hb
    rcases List.mem_map.mp hb with ⟨a, ha, rfl⟩
    by_cases hid : a.id = id <;>
      simp only [hid, if_true, if_false] at himg ⊢ <;>
      exact h a ha himg
  · intro l i j hi h b hb himg
    exact h b ((handleDrop_perm j hi).mem_iff.mp hb) himg
  · intro l id hguard h b hb himg
    unfold toggleEditMode at hb
    rcases List.mem_map.mp hb with ⟨a, ha, rfl⟩
    by_cases hid : a.id = id
    · simp only [hid, if_true] at himg ⊢
      exact absurd himg (hguard a ha hid)
    · simp [hid]

/-- Witness for the amended C6 at concrete Documents. -/
theorem spec_c6_amended_preservation_witness :
    noImageEditing (addBlock BlockType.image "N" [blockC]) ∧
    noImageEditing (updateBlockContent "C" "z" [blockC]) ∧
    noImageEditing (handleDrop [blockA, blockC] (some 0) 1) ∧
    noImageEditing (toggleEditMode "A" [blockA, blockC]) :=
  ⟨spec_c6_amended_preservation.1 [blockC] BlockType.image "N" (by decide),
   spec_c6_amended_preservation.2.1 [blockC] "C" "z" (by decide),
   spec_c6_amended_preservation.2.2.1 [blockA, blockC] 0 1 (by decide)
     (by decide),
   spec_c6_amended_preservation.2.2.2 [blockA, blockC] "A" (by decide)
     (by decide)⟩

/-- C2: for valid `i ≠ j`, `drop` keeps the length, puts the moved block
at index `j`, and leaves the relative order of the remaining blocks
unchanged (removing the moved block from the result gives the original
Document minus the block at `i`); on `[A, B, C]` dropping block 0 at
index 2 yields `[B, C, A]`. -/
theorem spec_c2_drop_moves_element :
    (∀ (l : List Block) (i j : Nat) (hi : i < l.length), j < l.length →
      i ≠ j →
      (handleDrop l (some i) j).length = l.length ∧
      (handleDrop l (some i) j)[j]? = some (l.get ⟨i, hi⟩) ∧
      (handleDrop l (some i) j).eraseIdx j = l.eraseIdx i) ∧
    handleDrop [blockA, blockB, blockC] (some 0) 2 =
      [blockB, blockC, blockA] := by
  constructor
  · intro l i j hi hj hij
    have hd : handleDrop l (some i) j = reorder l i j := by
      simp [handleDrop, hij]
    have e1 : reorder l i j = (l.eraseIdx i).insertIdx j l[i] :=
      reorder_eq hi hj
    have he : (l.eraseIdx i).length = l.length - 1 :=
      List.length_eraseIdx_of_lt hi
    have hjle : j ≤ (l.eraseIdx i).length := by omega
    have hlen : (reorder l i j).length = l.length :=
      (reorder_perm j hi).length_eq
    have hj' : j < (reorder l i j).length := by omega
    have e4 : (reorder l i j).get ⟨j, hj'⟩ = l[i] := by
      rw [List.get_of_eq e1]
      exact List.get_insertIdx_self _ _ _ hjle
    refine ⟨by rw [hd]; exact hlen, ?_,
      by rw [hd, e1, List.eraseIdx_insertIdx]⟩
    rw [hd, List.getElem?_eq_getElem hj']
    exact congrArg some e4
  · decide

/-- Witness for C2 at the concrete Document `[A, B, C]` with `i = 0`,
`j = 2`. -/
theorem spec_c2_drop_moves_element_witness :
    (handleDrop [blockA, blockB, blockC] (some 0) 2).length = 3 ∧
    (handleDrop [blockA, blockB, blockC] (some 0) 2)[2]? = some blockA ∧
    (handleDrop [blockA, blockB, blockC] (some 0) 2).eraseIdx 2 =
      [blockA, blockB, blockC].eraseIdx 0 :=
  spec_c2_drop_moves_element.1 [blockA, blockB, blockC] 0 2
    (by decide) (by decide) (by decide)

/-- C8: `updateBlockContent id c` keeps the Document length, rewrites only
the content of the block matching `id` (its id, type, editing flag and
position, and every other block, are untouched), and is the identity when
`id` is absent. -/
theorem spec_c8_update_frame (l : List Block) (id c : String) :
    (updateBlockContent id c l).length = l.length ∧
    (∀ (k : Nat) (hk : k < l.length),
      (updateBlockContent id c l)[k]? =
        some (if (l.get ⟨k, hk⟩).id = id
              then { l.get ⟨k, hk⟩ with content := c }
              else l.get ⟨k, hk⟩)) ∧
    (id ∉ l.map Block.id → updateBlockContent id c l = l) := by
  refine ⟨by simp [updateBlockContent], ?_, ?_⟩
  · intro k hk
    unfold updateBlockContent
    rw [List.getElem?_map, List.getElem?_eq_getElem hk]
    rfl
  · intro h
    unfold updateBlockContent
    have hcongr : ∀ b ∈ l,
        (if b.id = id then { b with content := c } else b) = b := by
      intro b hb
      have hne : b.id ≠ id := fun he =>
        h (he ▸ List.mem_map_of_mem Block.id hb)
      simp [hne]
    rw [List.map_congr_left hcongr, List.map_id']

/-- Witness for C8 at a concrete Document, a present id and an absent
id. -/
theorem spec_c8_update_frame_witness :
    (updateBlockContent "A" "z" [blockA, blockB]).length = 2 ∧
    ((updateBlockContent "A" "z" [blockA, blockB])[0]? =
      some (if blockA.id = "A" then { blockA with content := "z" }
            else blockA)) ∧
    updateBlockContent "q" "z" [blockA, blockB] = [blockA, blockB] :=
  ⟨(spec_c8_update_frame [blockA, blockB] "A" "z").1,
   (spec_c8_update_frame [blockA, blockB] "A" "z").2.1 0 (by decide),
   (spec_c8_update_frame [blockA, blockB] "q" "z").2.2 (by decide)⟩

/-- C9: `addBlock` always succeeds, appending exactly one block at the
end with the type's placeholder content and editing flag true exactly for
non-image types; `addBlock` of a text block on `[A, B]` yields
`[A, B, NewText]` with `NewText.editing = true` and content
`New text block`. -/
theorem spec_c9_addBlock_appends :
    (∀ (l : List Block) (t : BlockType) (fid : String),
      (addBlock t fid l).length = l.length + 1 ∧
      (addBlock t fid l).take l.length = l ∧
      (addBlock t fid l).getLast? =
        some { id := fid, type := t, content := placeholderContent t,
               isEditing := t ≠ BlockType.image }) ∧
    placeholderContent BlockType.text = "New text block" ∧
    addBlock BlockType.text "N" [blockA, blockB] =
      [blockA, blockB,
       { id := "N", type := BlockType.text, content := "New text block",
         isEditing := true }] := by
  refine ⟨fun l t fid => ⟨by simp [addBlock], ?_, ?_⟩, by decide, by decide⟩
  · unfold addBlock
    exact List.take_left l _
  · unfold addBlock
    exact List.getLast?_concat l
